import Mathlib

/-!
Verification of the streamflow-prediction application core
(`streamlit_app.py`): the data-to-sequence preprocessing pipeline and the
uncertainty-aware prediction/evaluation engine.

The Python source is shallowly embedded: pandas/numpy float values become
exact rationals (`ℚ`), NaN cells become `Option ℚ` (`none` = NaN), numpy
arrays become `List ℚ` / `List (List ℚ)`, and Python exceptions become
`Except String`.  Square roots do not stay inside `ℚ`, so quantities that
the source passes through `sqrt` (z-scores, standard deviations) are
carried as their squares; every comparison the source makes on such a
quantity is against a nonnegative bound, so comparing squares is exact.
-/

namespace StreamflowApp

/-! ## Basic list helpers -/

/-- Empirical mean of a list of rationals (`np.mean`); numpy returns NaN on
an empty array, the embedding returns `0/0 = 0` which no claim exercises. -/
def npMean (l : List ℚ) : ℚ := l.sum / l.length

/-- Insertion step for an insertion sort on rationals. -/
def insertSorted (x : ℚ) : List ℚ → List ℚ
  | [] => [x]
  | y :: ys => if x ≤ y then x :: y :: ys else y :: insertSorted x ys

/-- Insertion sort on rationals, used to embed the median computations of
pandas (`Series.median`). -/
def sortRat (l : List ℚ) : List ℚ := l.foldr insertSorted []

/-! ## Python slice semantics

The train handler slices numpy arrays with possibly negative indices
(`X_train[:-val_size]`, `X_train[-val_size:]`).  `pySliceTo` and
`pySliceFrom` embed `a[:i]` and `a[i:]` for an arbitrary integer `i`,
including the clamping Python performs and the `-0 = 0` coincidence that
drives claim C10. -/

/-- Python `a[:i]` for an arbitrary integer `i`. -/
def pySliceTo (xs : List α) (i : Int) : List α :=
  if 0 ≤ i then xs.take i.toNat else xs.take ((xs.length : Int) + i).toNat

/-- Python `a[i:]` for an arbitrary integer `i`. -/
def pySliceFrom (xs : List α) (i : Int) : List α :=
  if 0 ≤ i then xs.drop i.toNat else xs.drop ((xs.length : Int) + i).toNat

/-! ## Train/validation split (train handler, lines 1102-1107)

```
val_size = int(len(X_train) * 0.2)
X_val = X_train[-val_size:]
y_val = y_train[-val_size:]
X_train = X_train[:-val_size]
y_train = y_train[:-val_size]
```

`int(n * 0.2)` on a nonnegative integer `n` equals `⌊n / 5⌋` (the float
product `n * 0.2` never crosses an integer boundary before truncation),
which the embedding writes as natural division `n / 5`. -/

/-- Validation-set size chosen by the train handler: `int(len(X_train) * 0.2)`. -/
def valSizeOf (n : Nat) : Nat := n / 5

/-- The train handler's chronological validation split: returns
(`X_train` after the split, `X_val`), via Python slicing with the negated
size. -/
def validationSplit (xs : List α) : List α × List α :=
  let v : Int := (valSizeOf xs.length : Int)
  (pySliceTo xs (-v), pySliceFrom xs (-v))

/-! ## Output clipping and the de-scaling call sites -/

/-- Elementwise `np.clip(x, 0, None)`: lower bound 0, no upper bound. -/
def npClipZero (x : ℚ) : ℚ := max x 0

/-- The clipping the handlers apply to a whole de-scaled prediction array
(`np.clip(y_pred, 0, None)`, lines 1389 and 1736). -/
def clipPreds (l : List ℚ) : List ℚ := l.map npClipZero

/-! ## MinMaxScaler (sklearn), fit on `train_df[feature_cols + [output_var]]` -/

/-- Per-column state of a fitted `MinMaxScaler`: the training data minimum
and maximum of that column. -/
structure ColParams where
  dmin : ℚ
  dmax : ℚ
deriving Repr, DecidableEq

/-- sklearn `_handle_zeros_in_scale`: a zero data range is replaced by 1 so
that constant columns scale by the identity. -/
def handleZeros (r : ℚ) : ℚ := if r = 0 then 1 else r

/-- sklearn `scale_` for feature range (0, 1): `1 / data_range`. -/
def scaleOf (p : ColParams) : ℚ := 1 / handleZeros (p.dmax - p.dmin)

/-- sklearn `min_` for feature range (0, 1): `0 - data_min * scale_`. -/
def minOf (p : ColParams) : ℚ := -p.dmin * scaleOf p

/-- `MinMaxScaler.transform` on one cell: `x * scale_ + min_`. -/
def mmTransform1 (p : ColParams) (x : ℚ) : ℚ := x * scaleOf p + minOf p

/-- `MinMaxScaler.inverse_transform` on one cell: `(x - min_) / scale_`. -/
def mmInverse1 (p : ColParams) (x : ℚ) : ℚ := (x - minOf p) / scaleOf p

/-- Smallest element of a rational list (0 for the empty list, which fit is
never called on). -/
def listMin : List ℚ → ℚ
  | [] => 0
  | x :: xs => xs.foldl min x

/-- Largest element of a rational list. -/
def listMax : List ℚ → ℚ
  | [] => 0
  | x :: xs => xs.foldl max x

/-- `MinMaxScaler.fit` on column-major data: records each column's min/max. -/
def mmFit (cols : List (List ℚ)) : List ColParams :=
  cols.map (fun c => ⟨listMin c, listMax c⟩)

/-- `MinMaxScaler.transform` on one row (the row's columns in fit order). -/
def mmTransformRow (ps : List ColParams) (row : List ℚ) : List ℚ :=
  List.zipWith mmTransform1 ps row

/-- `MinMaxScaler.inverse_transform` on one row. -/
def mmInverseRow (ps : List ColParams) (row : List ℚ) : List ℚ :=
  List.zipWith mmInverse1 ps row

/-- The test handler's de-scaling of a prediction (lines 1368-1371 and
1735): it stacks the predicted output FIRST and the feature row after it
(`np.hstack([y_pred_mean, X[:, 0, :]])`), applies `inverse_transform`, and
reads column 0 — even though the scaler was fit with the output column
LAST (`feature_cols + [output_var]`, line 1090). -/
def descaledPred (ps : List ColParams) (pred : ℚ) (feats : List ℚ) : ℚ :=
  (mmInverseRow ps (pred :: feats)).getD 0 0

/-- The de-scaled prediction array of the cross-validation handler
(line 1514): each fold's predictions are inverse-transformed exactly like
the test handler's and then passed straight into metric evaluation
(line 1519) — this path applies NO clipping. -/
def cvValPreds (ps : List ColParams) (predMeans : List ℚ)
    (featRows : List (List ℚ)) : List ℚ :=
  List.zipWith (fun p f => descaledPred ps p f) predMeans featRows

/-- The final-prediction step of the two call sites that do clip: the
test handler (lines 1368-1371 with 1389) and the new-prediction handler
(lines 1735-1736) de-scale each prediction and then clip the array to be
non-negative.  The cross-validation handler's de-scaled predictions
(`cvValPreds`, line 1514) never pass through this clipping. -/
def finalPreds (ps : List ColParams) (predMeans : List ℚ)
    (featRows : List (List ℚ)) : List ℚ :=
  clipPreds (List.zipWith (fun p f => descaledPred ps p f) predMeans featRows)

/-! ## Metric Library (lines 102-131) -/

/-- Nash-Sutcliffe Efficiency exactly as written in the source:
`1 - sum((a - p)^2) / sum((a - mean(a))^2)`. -/
def nse (actual predicted : List ℚ) : ℚ :=
  1 - (List.zipWith (fun a p => (a - p) ^ 2) actual predicted).sum /
      (actual.map (fun a => (a - npMean actual) ^ 2)).sum

/-- The keys of `all_metrics_dict` (lines 124-131), in source order. -/
def all_metrics_names : List String :=
  ["RMSE", "MAE", "R²", "NSE", "KGE", "MAPE"]

/-! ## Uncertainty predictor (`predict_with_uncertainty`, lines 524-550)

The non-TFP branch (the model does not natively emit a distribution):
noise of shape `(num_samples,) + X.shape` is added to `X`, the perturbed
copies are flattened into one batch, the model runs on the batch, and the
predictions are reshaped back to `(num_samples, -1)` before taking
`np.mean` / `np.std` along axis 0.  The Gaussian draws
`np.random.normal(0, 0.01, ...)` are abstracted as a function
`noise s i j`; `np.std` is `sqrt` of the returned per-step variance, so
the embedding returns the variance (the square of the standard
deviation), which determines the standard deviation exactly. -/

/-- Number of Monte Carlo samples actually used (lines 534-535):
`if len(X) > 1000: num_samples = min(20, num_samples)`. -/
def mcSamples (X : List (List ℚ)) (num_samples : Nat) : Nat :=
  if X.length > 1000 then min 20 num_samples else num_samples

/-- The s-th perturbed copy `X + noise[s]` (line 539), elementwise. -/
def noisyCopy (X : List (List ℚ)) (noise : Nat → Nat → Nat → ℚ) (s : Nat) :
    List (List ℚ) :=
  X.mapIdx (fun i row => row.mapIdx (fun j v => v + noise s i j))

/-- The flattened inference batch `X_noisy.reshape(-1, *X.shape[1:])`
(line 542): all perturbed copies concatenated. -/
def mcBatch (X : List (List ℚ)) (noise : Nat → Nat → Nat → ℚ) (S : Nat) :
    List (List ℚ) :=
  ((List.range S).map (noisyCopy X noise)).flatten

/-- Row-major accessor for `predictions.reshape(num_samples, -1)`
(line 546): sample `s`, time step `t`. -/
def reshaped (preds : List ℚ) (N s t : Nat) : ℚ := preds.getD (s * N + t) 0

/-- `predictions = model.predict(X_batch)` (line 543): the model maps
each row of the flattened batch to one prediction. -/
def mcPredictions (model : List ℚ → ℚ) (X : List (List ℚ))
    (num_samples : Nat) (noise : Nat → Nat → Nat → ℚ) : List ℚ :=
  (mcBatch X noise (mcSamples X num_samples)).map model

/-- `mean_pred = np.mean(predictions, axis=0)` (line 547) on the
predictions reshaped to `(num_samples, -1)`. -/
def mcMeanPred (model : List ℚ → ℚ) (X : List (List ℚ))
    (num_samples : Nat) (noise : Nat → Nat → Nat → ℚ) : List ℚ :=
  (List.range X.length).map (fun t =>
    ((List.range (mcSamples X num_samples)).map (fun s =>
      reshaped (mcPredictions model X num_samples noise) X.length s t)).sum
    / (mcSamples X num_samples : ℚ))

/-- The square of `std_pred = np.std(predictions, axis=0)` (line 548):
the per-time-step empirical variance across the samples (the square
determines the reported standard deviation exactly). -/
def mcVarPred (model : List ℚ → ℚ) (X : List (List ℚ))
    (num_samples : Nat) (noise : Nat → Nat → Nat → ℚ) : List ℚ :=
  (List.range X.length).map (fun t =>
    ((List.range (mcSamples X num_samples)).map (fun s =>
      (reshaped (mcPredictions model X num_samples noise) X.length s t
        - (mcMeanPred model X num_samples noise).getD t 0) ^ 2)).sum
    / (mcSamples X num_samples : ℚ))

/-- The Monte Carlo branch of `predict_with_uncertainty` (lines 532-550):
returns the per-time-step empirical mean and empirical variance (the
square of `np.std`) across the `mcSamples X num_samples` perturbed
inference runs. -/
def predict_with_uncertainty (model : List ℚ → ℚ) (X : List (List ℚ))
    (num_samples : Nat) (noise : Nat → Nat → Nat → ℚ) : List ℚ × List ℚ :=
  (mcMeanPred model X num_samples noise, mcVarPred model X num_samples noise)

/-! ## DataFrame embedding for `preprocess_data` (lines 302-367)

A pandas DataFrame of numeric columns becomes an ordered association list
of named columns; a cell is `Option ℚ` with `none` standing for NaN. -/

/-- One DataFrame column: cells, `none` = NaN. -/
abbrev Col := List (Option ℚ)

/-- A pandas DataFrame: ordered, named numeric columns. -/
structure DataFrame where
  cols : List (String × Col)
deriving Repr, DecidableEq

/-- Whether a column name is present (`col in df.columns`). -/
def DataFrame.hasCol (df : DataFrame) (name : String) : Bool :=
  df.cols.any (fun c => c.1 == name)

/-- Column lookup (first match, like a pandas column access). -/
def DataFrame.getCol (df : DataFrame) (name : String) : Col :=
  (((df.cols.find? (fun c => c.1 == name))).map (fun c => c.2)).getD []

/-- Column assignment `df[name] = c`: replaces an existing column in
place, otherwise appends a new column on the right, as pandas does. -/
def DataFrame.setCol (df : DataFrame) (name : String) (c : Col) : DataFrame :=
  if df.hasCol name then
    ⟨df.cols.map (fun p => if p.1 == name then (name, c) else p)⟩
  else ⟨df.cols ++ [(name, c)]⟩

/-- Number of rows (all columns of a well-formed frame share one length). -/
def DataFrame.nRows (df : DataFrame) : Nat :=
  ((df.cols.head?.map (fun c => c.2.length))).getD 0

/-- The non-NaN values of a column (what pandas reductions skip NaN over). -/
def someVals (c : Col) : List ℚ := c.filterMap id

/-- Row filtering by index predicate, applied to every column. -/
def idxFilter (c : Col) (keep : Nat → Bool) : Col :=
  ((List.range c.length).filter keep).map (fun i => c.getD i none)

/-- Keep only the rows whose index satisfies `keep` (used for `dropna`). -/
def DataFrame.filterRows (df : DataFrame) (keep : Nat → Bool) : DataFrame :=
  ⟨df.cols.map (fun p => (p.1, idxFilter p.2 keep))⟩

/-! ## Per-column pandas/scipy operations used by `preprocess_data` -/

/-- `Series.mean()`: mean of the non-NaN cells, NaN when there are none. -/
def colMean (c : Col) : Option ℚ :=
  let v := someVals c
  if v.length = 0 then none else some (v.sum / v.length)

/-- `Series.median()`: median of the non-NaN cells (mean of the two middle
elements for an even count), NaN when there are none. -/
def colMedian (c : Col) : Option ℚ :=
  let s := sortRat (someVals c)
  let n := s.length
  if n = 0 then none
  else if n % 2 = 1 then some (s.getD (n / 2) 0)
  else some ((s.getD (n / 2 - 1) 0 + s.getD (n / 2) 0) / 2)

/-- `Series.fillna(v)`: NaN cells become `v`; filling with NaN (`none`)
leaves NaN in place, as in pandas. -/
def fillnaCol (c : Col) (v : Option ℚ) : Col :=
  c.map (fun o => o.orElse (fun _ => v))

/-- Forward-fill worker carrying the last seen value. -/
def ffillGo : Option ℚ → Col → Col
  | _, [] => []
  | last, none :: rest => last :: ffillGo last rest
  | _, some x :: rest => some x :: ffillGo (some x) rest

/-- `Series.fillna(method='ffill')`. -/
def ffillCol (c : Col) : Col := ffillGo none c

/-- `Series.fillna(method='bfill')`. -/
def bfillCol (c : Col) : Col := (ffillGo none c.reverse).reverse

/-- The per-column missing-value step of lines 316-328, selected by the
`handle_missing` policy string. -/
def handleMissingCol (policy : String) (c : Col) : Col :=
  if policy == "median" then fillnaCol c (colMedian c)
  else if policy == "mean" then fillnaCol c (colMean c)
  else if policy == "forward" then ffillCol c
  else if policy == "backward" then bfillCol c
  else c

/-- Mean of a column's values (used inside `stats.zscore`). -/
def colMeanVal (c : Col) : ℚ :=
  (someVals c).sum / ((someVals c).length : ℚ)

/-- Population variance of a column's values (`ddof=0`, as in
`stats.zscore`). -/
def colPopVar (c : Col) : ℚ :=
  ((someVals c).map (fun x => (x - colMeanVal c) ^ 2)).sum
    / ((someVals c).length : ℚ)

/-- Squared z-scores of a column, embedding `stats.zscore` (line 335).
scipy propagates NaN: any NaN cell makes the column mean NaN and hence
every z-score NaN; a zero population variance makes every z-score the NaN
`0/0`.  No exception is raised in either case.  The square is carried
because `sqrt` leaves `ℚ`; the source only compares `|z|` against a
nonnegative threshold, which the square determines exactly. -/
def zscoreSqCol (c : Col) : List (Option ℚ) :=
  if c.any (fun o => o.isNone) then c.map (fun _ => none)
  else
    c.map (fun o =>
      match o with
      | some x => if colPopVar c = 0 then none
                  else some ((x - colMeanVal c) ^ 2 / colPopVar c)
      | none => none)

/-- `Series.mask(abs(z) > threshold)` (line 336): a cell is replaced by
NaN when its z-score exceeds the threshold; a NaN z-score compares False
and keeps the cell.  `tSq` is the squared threshold. -/
def maskCol (c : Col) (z : List (Option ℚ)) (tSq : ℚ) : Col :=
  List.zipWith (fun o zo =>
    match zo with
    | some zq => if tSq < zq then none else o
    | none => o) c z

/-- The outlier-removal step of lines 334-337 on one column: mask cells
with `|z| > threshold`, then fill the masked cells with the post-mask
median. -/
def outlierCol (c : Col) (tSq : ℚ) : Col :=
  fillnaCol (maskCol c (zscoreSqCol c) tSq)
    (colMedian (maskCol c (zscoreSqCol c) tSq))

/-- `Series.shift(lag)` (lines 346 and 353): the first `lag` cells become
NaN and the column's values move down, keeping the length. -/
def pdShiftCol (lag : Nat) (c : Col) : Col :=
  List.replicate (min lag c.length) none ++ c.take (c.length - lag)

/-- The lag-column name `f'{var}_Lag_{lag}'`. -/
def lagName (var : String) (lag : Nat) : String :=
  var ++ "_Lag_" ++ toString lag

/-- Substring test on character lists (Python `pat in s`). -/
def charsContain (s pat : List Char) : Bool :=
  (List.range (s.length + 1)).any (fun i => pat.isPrefixOf (s.drop i))

/-- Substring test on strings (Python `"_Lag_" in col`, line 357). -/
def strContains (s pat : String) : Bool := charsContain s.toList pat.toList

/-- Lag generation for one variable (lines 345-347 / 352-354): adds the
columns `var_Lag_1 .. var_Lag_k` shifted from the variable's current
column and returns the extended frame with the new feature names. -/
def addLags (df : DataFrame) (var : String) (k : Nat) :
    DataFrame × List String :=
  (List.range k).foldl (fun acc j =>
      let lag := j + 1
      (acc.1.setCol (lagName var lag) (pdShiftCol lag (acc.1.getCol var)),
       acc.2 ++ [lagName var lag]))
    (df, [])

/-- The effective input-variable list (lines 309-312): when any requested
column is missing, the input variables are filtered down to the existing
ones. -/
def ivEffective (df : DataFrame) (input_vars : List String)
    (output_var : String) : List String :=
  if (input_vars ++ [output_var]).any (fun c => !(df.hasCol c)) then
    input_vars.filter (fun v => df.hasCol v)
  else input_vars

/-- The missing-value pass (lines 316-328): each listed column is
rewritten by the policy in order. -/
def fillMissingStep (df : DataFrame) (vars : List String)
    (policy : String) : DataFrame :=
  vars.foldl (fun d v => d.setCol v (handleMissingCol policy (d.getCol v))) df

/-- The outlier pass (lines 330-339), applied per listed column when
enabled. -/
def outlierStep (df : DataFrame) (vars : List String)
    (remove_outliers : Bool) (thresholdSq : ℚ) : DataFrame :=
  if remove_outliers then
    vars.foldl (fun d v => d.setCol v (outlierCol (d.getCol v) thresholdSq)) df
  else df

/-- Lag generation for the input variables (lines 342-349): `Dynamic`
inputs are lag-expanded, others pass through as unlagged feature names. -/
def lagInput (df : DataFrame) (input_vars : List String)
    (var_types : List (String × String)) (num_lags : Nat) :
    DataFrame × List String :=
  input_vars.foldl (fun acc var =>
      if var_types.lookup var = some "Dynamic" then
        ((addLags acc.1 var num_lags).1, acc.2 ++ (addLags acc.1 var num_lags).2)
      else (acc.1, acc.2 ++ [var]))
    (df, [])

/-- Lag generation for inputs followed by the output variable
(lines 342-354), accumulating the feature-column names in order. -/
def lagAll (df : DataFrame) (input_vars : List String) (output_var : String)
    (var_types : List (String × String)) (num_lags : Nat) :
    DataFrame × List String :=
  ((addLags (lagInput df input_vars var_types num_lags).1 output_var num_lags).1,
   (lagInput df input_vars var_types num_lags).2
     ++ (addLags (lagInput df input_vars var_types num_lags).1 output_var num_lags).2)

/-- The dropna of lines 356-359: when any `_Lag_` columns exist, keep
only the rows where every such column has a value. -/
def dropnaStep (d : DataFrame) (feature_cols : List String) : DataFrame :=
  if (feature_cols.filter (fun c => strContains c "_Lag_")).isEmpty then d
  else d.filterRows (fun i =>
    (feature_cols.filter (fun c => strContains c "_Lag_")).all
      (fun c => ((d.getCol c).getD i none).isSome))

/-- The final `fillna(0)` of line 362 over the whole frame. -/
def fillZeroStep (d : DataFrame) : DataFrame :=
  ⟨d.cols.map (fun p => (p.1, fillnaCol p.2 (some 0)))⟩

/-- The `try`-block body of `preprocess_data` (lines 305-364).  The one
`raise` of the body (line 314, output variable missing) becomes the
`.error` case; every other operation is total in the embedding, matching
a run in which pandas raises nowhere else. -/
def preprocessBody (df : DataFrame) (input_vars : List String)
    (output_var : String) (var_types : List (String × String))
    (num_lags : Nat) (handle_missing : String) (remove_outliers : Bool)
    (thresholdSq : ℚ) : Except String (DataFrame × List String) :=
  if !(df.hasCol output_var) then
    .error ("Output variable " ++ output_var ++ " not found in dataframe")
  else
    .ok
      (fillZeroStep (dropnaStep
          (lagAll (outlierStep
              (fillMissingStep df
                (ivEffective df input_vars output_var ++ [output_var])
                handle_missing)
              (ivEffective df input_vars output_var ++ [output_var])
              remove_outliers thresholdSq)
            (ivEffective df input_vars output_var) output_var var_types
            num_lags).1
          (lagAll (outlierStep
              (fillMissingStep df
                (ivEffective df input_vars output_var ++ [output_var])
                handle_missing)
              (ivEffective df input_vars output_var ++ [output_var])
              remove_outliers thresholdSq)
            (ivEffective df input_vars output_var) output_var var_types
            num_lags).2),
       (lagAll (outlierStep
           (fillMissingStep df
             (ivEffective df input_vars output_var ++ [output_var])
             handle_missing)
           (ivEffective df input_vars output_var ++ [output_var])
           remove_outliers thresholdSq)
         (ivEffective df input_vars output_var) output_var var_types
         num_lags).2)

/-- `preprocess_data` (lines 302-367): the body wrapped in the
catch-all `except` that degrades to the original frame and the unlagged
input-variable list. -/
def preprocess_data (df : DataFrame) (input_vars : List String)
    (output_var : String) (var_types : List (String × String))
    (num_lags : Nat) (handle_missing : String) (remove_outliers : Bool)
    (thresholdSq : ℚ) : DataFrame × List String :=
  match preprocessBody df input_vars output_var var_types num_lags
      handle_missing remove_outliers thresholdSq with
  | .ok r => r
  | .error _ => (df, input_vars)

/-! ## Theorems -/

/-- C10: for a training partition with fewer than 5 sequences,
`int(0.2 * n)` is 0, so the Python slices `X_train[:-0]` and
`X_train[-0:]` leave the training set empty and put every sequence into
validation. -/
theorem small_partition_split_empties_training {α : Type} (xs : List α)
    (h : xs.length < 5) : validationSplit xs = ([], xs) := by
  have hv : valSizeOf xs.length = 0 := Nat.div_eq_of_lt h
  simp [validationSplit, hv, pySliceTo, pySliceFrom]

/-- C10 witness: a 3-sequence partition is assigned entirely to
validation, with an empty training set. -/
theorem small_partition_split_witness :
    ([(0 : ℚ), 1, 2].length < 5) ∧ validationSplit [(0 : ℚ), 1, 2] = ([], [0, 1, 2]) :=
  ⟨by decide, small_partition_split_empties_training [(0 : ℚ), 1, 2] (by decide)⟩

/-- C5 counterexample: on a 3-sequence training partition the claim
predicts validation = last `int(0.2*3) = 0` sequences (empty) and
training = the whole partition; the code instead returns an empty
training set and the whole partition as validation. -/
theorem validation_split_claim_fails_small :
    validationSplit [(0 : ℚ), 1, 2] ≠ ([0, 1, 2], []) := by decide

/-- C5 (amended): whenever `int(0.2 * n) ≥ 1` (i.e. the training
partition has at least 5 sequences), validation is exactly the last
`int(0.2 * n)` sequences of the chronologically-ordered partition and
training is the remaining prefix, with no shuffling. -/
theorem validation_split_last_fifth {α : Type} (xs : List α)
    (h : 1 ≤ valSizeOf xs.length) :
    validationSplit xs =
      (xs.take (xs.length - valSizeOf xs.length),
       xs.drop (xs.length - valSizeOf xs.length)) := by
  have hle : valSizeOf xs.length ≤ xs.length := Nat.div_le_self _ _
  have hneg : ¬ (0 ≤ -(valSizeOf xs.length : Int)) := by omega
  have hcast : ((xs.length : Int) + -(valSizeOf xs.length : Int)).toNat
      = xs.length - valSizeOf xs.length := by omega
  simp [validationSplit, pySliceTo, pySliceFrom, hneg, hcast]

/-- C5 witness: on a 10-sequence partition the code keeps the first 8
sequences for training and the last 2 for validation. -/
theorem validation_split_last_fifth_witness :
    (1 ≤ valSizeOf ([(0 : ℚ), 1, 2, 3, 4, 5, 6, 7, 8, 9].length)) ∧
    validationSplit [(0 : ℚ), 1, 2, 3, 4, 5, 6, 7, 8, 9] =
      ([(0 : ℚ), 1, 2, 3, 4, 5, 6, 7, 8, 9].take
         ([(0 : ℚ), 1, 2, 3, 4, 5, 6, 7, 8, 9].length
           - valSizeOf ([(0 : ℚ), 1, 2, 3, 4, 5, 6, 7, 8, 9].length)),
       [(0 : ℚ), 1, 2, 3, 4, 5, 6, 7, 8, 9].drop
         ([(0 : ℚ), 1, 2, 3, 4, 5, 6, 7, 8, 9].length
           - valSizeOf ([(0 : ℚ), 1, 2, 3, 4, 5, 6, 7, 8, 9].length))) :=
  ⟨by decide, validation_split_last_fifth [(0 : ℚ), 1, 2, 3, 4, 5, 6, 7, 8, 9] (by decide)⟩

/-- C8: for an actual array of nonzero variance, `nse(actual, actual)`
equals 1 exactly, and `nse` of the constant predictor equal to
`mean(actual)` equals 0 exactly. -/
theorem nse_perfect_and_mean_predictor (actual : List ℚ)
    (h : (actual.map (fun a => (a - npMean actual) ^ 2)).sum ≠ 0) :
    nse actual actual = 1 ∧
    nse actual (actual.map (fun _ => npMean actual)) = 0 := by
  constructor
  · have hz : List.zipWith (fun a p => (a - p) ^ 2) actual actual
        = actual.map (fun a => (a - a) ^ 2) := List.zipWith_same _ _
    simp [nse, hz]
  · have hz : List.zipWith (fun a p => (a - p) ^ 2) actual
        (actual.map (fun _ => npMean actual))
        = actual.map (fun a => (a - npMean actual) ^ 2) := by
      rw [List.zipWith_map_right, List.zipWith_same]
    rw [nse, hz, div_self h]
    ring

/-- C8 witness: at `actual = [1, 2, 3]` the variance is nonzero, the
perfect predictor scores NSE 1, and the constant-mean predictor scores
NSE 0. -/
theorem nse_perfect_and_mean_predictor_witness :
    (([(1 : ℚ), 2, 3].map (fun a => (a - npMean [(1 : ℚ), 2, 3]) ^ 2)).sum ≠ 0) ∧
    (nse [(1 : ℚ), 2, 3] [(1 : ℚ), 2, 3] = 1 ∧
     nse [(1 : ℚ), 2, 3] ([(1 : ℚ), 2, 3].map (fun _ => npMean [(1 : ℚ), 2, 3])) = 0) :=
  ⟨by norm_num [npMean], nse_perfect_and_mean_predictor [(1 : ℚ), 2, 3] (by norm_num [npMean])⟩

/-- C9 counterexample: the metric dictionary of the source contains no
"Peak Flow Error" entry, so the Metric Library provides no such metric. -/
theorem peak_flow_error_missing :
    "Peak Flow Error" ∉ all_metrics_names := by decide

/-- C9 (amended): the Metric Library consists of exactly six metrics —
RMSE, MAE, R², NSE, KGE and MAPE — and provides none of the spec table's
Peak Flow Error, PBIAS, High/Low Flow Bias or Volume Error metrics. -/
theorem metric_library_coverage :
    all_metrics_names.length = 6 ∧
    "RMSE" ∈ all_metrics_names ∧ "MAE" ∈ all_metrics_names ∧
    "R²" ∈ all_metrics_names ∧ "NSE" ∈ all_metrics_names ∧
    "KGE" ∈ all_metrics_names ∧ "MAPE" ∈ all_metrics_names ∧
    "Peak Flow Error" ∉ all_metrics_names ∧
    "PBIAS" ∉ all_metrics_names ∧
    "High Flow Bias" ∉ all_metrics_names ∧
    "Low Flow Bias" ∉ all_metrics_names ∧
    "Volume Error" ∉ all_metrics_names := by
  refine ⟨by decide, ?_, ?_, ?_, ?_, ?_, ?_, ?_, ?_, ?_, ?_, ?_⟩ <;> decide

/-- C4 (code evaluated at the failing input): in a cross-validation fold
with the scaler fit on a feature of training range [0, 10] and an output
of range [0, 100], a slightly negative model prediction (scaled value
−1/20 on the scaled feature row [1/2]) de-scales at line 1514 to −1/2,
which is negative and reaches the metric evaluation of line 1519 without
any clipping — clipping would have mapped it to 0.  The test and
new-prediction handlers, by contrast, do clip: their final array is
exactly the de-scaled array with every negative entry mapped to 0 and
every non-negative entry unchanged (last conjunct). -/
theorem cv_descaled_predictions_unclipped :
    cvValPreds (mmFit [[0, 10], [0, 100]]) [-(1/20)] [[1/2]] = [-(1/2)] ∧
    (-(1/2) : ℚ) < 0 ∧
    clipPreds [-(1/2)] = [0] ∧
    (∀ (ps : List ColParams) (predMeans : List ℚ) (featRows : List (List ℚ)),
      finalPreds ps predMeans featRows
        = (cvValPreds ps predMeans featRows).map
            (fun x => if x < 0 then 0 else x)) := by
  refine ⟨?_, by norm_num, ?_, ?_⟩
  · norm_num [cvValPreds, descaledPred, mmInverseRow, mmInverse1, mmFit,
      scaleOf, minOf, handleZeros, listMin, listMax, min_def, max_def]
  · norm_num [clipPreds, npClipZero, max_def]
  · intro ps predMeans featRows
    have hfun : npClipZero = fun x : ℚ => if x < 0 then 0 else x := by
      funext x
      by_cases hx : x < 0
      · simp [npClipZero, hx, max_eq_right (le_of_lt hx)]
      · simp [npClipZero, hx, max_eq_left (le_of_not_lt hx)]
    rw [finalPreds, cvValPreds, clipPreds, hfun]

/-- C1 (code evaluated at the failing input): the scaler is fit on the
columns `feature_cols + [output]` — here a feature with training range
[0, 10] and an output with range [0, 100] — and round-trips exactly when
that column order is reused; but the handlers pass
`np.hstack([prediction, features])` to `inverse_transform` (output column
moved to the front), so even a perfect scaled prediction of the row
`[4, 70]`'s output (scaled value 7/10) de-scales through the feature
column's parameters to 7 instead of the actual output value 70. -/
theorem inverse_transform_column_order_bug :
    mmInverseRow (mmFit [[0, 10], [0, 100]])
      (mmTransformRow (mmFit [[0, 10], [0, 100]]) [4, 70]) = [4, 70] ∧
    mmTransformRow (mmFit [[0, 10], [0, 100]]) [4, 70] = [2/5, 7/10] ∧
    descaledPred (mmFit [[0, 10], [0, 100]]) (7/10) [2/5] = 7 ∧
    (7 : ℚ) ≠ 70 := by
  refine ⟨?_, ?_, ?_, by norm_num⟩ <;>
    norm_num [mmFit, mmInverseRow, mmTransformRow, mmInverse1, mmTransform1,
      scaleOf, minOf, handleZeros, listMin, listMax, descaledPred, min_def, max_def]

/-! ### Reshape correctness for the Monte Carlo batch -/

/-- Reading position `s * N + t` of a flattening of `N`-length blocks is
reading position `t` of block `s` (correctness of the
`reshape(-1, ...)` / `reshape(num_samples, -1)` round trip). -/
theorem flatten_getD_uniform {α : Type} (N : Nat) (d : α) :
    ∀ (L : List (List α)) (s t : Nat), (∀ l ∈ L, l.length = N) →
      s < L.length → t < N →
      L.flatten.getD (s * N + t) d = (L.getD s []).getD t d := by
  intro L
  induction L with
  | nil => intro s t _ hs _; simp at hs
  | cons l L ih =>
    intro s t h hs ht
    have hl : l.length = N := h l (List.mem_cons_self l L)
    cases s with
    | zero =>
      have htl : t < l.length := by rw [hl]; exact ht
      simp only [List.flatten_cons, Nat.zero_mul, Nat.zero_add,
        List.getD_cons_zero]
      rw [List.getD_append _ _ _ _ htl]
    | succ s =>
      have hidx : (s + 1) * N + t = l.length + (s * N + t) := by
        rw [hl]; ring
      rw [List.flatten_cons, hidx, List.getD_append_right _ _ _ _ (by omega),
        Nat.add_sub_cancel_left]
      exact ih s t (fun x hx => h x (List.mem_cons_of_mem l hx))
        (by simpa using hs) ht

/-- Every perturbed copy has as many rows as `X`. -/
theorem noisyCopy_length (X : List (List ℚ)) (noise : Nat → Nat → Nat → ℚ)
    (s : Nat) : (noisyCopy X noise s).length = X.length := by
  simp [noisyCopy]

/-- getD through a map, under the length bound. -/
theorem getD_map_lt {α β : Type} (f : α → β) (l : List α) (i : Nat)
    (h : i < l.length) (d : β) (e : α) :
    (l.map f).getD i d = f (l.getD i e) := by
  rw [List.getD_eq_getElem _ _ (by simpa using h), List.getD_eq_getElem _ _ h,
    List.getElem_map]

/-- getD on a range below the bound gives the index itself. -/
theorem getD_range_lt (n i d : Nat) (h : i < n) :
    (List.range n).getD i d = i := by
  rw [List.getD_eq_getElem _ _ (by simpa using h)]
  exact List.getElem_range _ (by simpa using h)

/-- Length of a flattening of uniform-length blocks. -/
theorem length_flatten_uniform {α : Type} (N : Nat) :
    ∀ (L : List (List α)), (∀ l ∈ L, l.length = N) →
      L.flatten.length = L.length * N := by
  intro L
  induction L with
  | nil => intro _; simp
  | cons l L ih =>
    intro h
    have hl := h l (List.mem_cons_self l L)
    have hL := ih (fun x hx => h x (List.mem_cons_of_mem l hx))
    rw [List.flatten_cons, List.length_append, hl, hL, List.length_cons]
    ring

/-- The prediction the Monte Carlo loop computes for sample `s` and time
step `t`: the model applied to the s-th perturbed copy's t-th row, as
recovered through the flatten/reshape round trip. -/
theorem reshaped_predictions (model : List ℚ → ℚ) (X : List (List ℚ))
    (noise : Nat → Nat → Nat → ℚ) (S s t : Nat) (hs : s < S)
    (ht : t < X.length) :
    reshaped ((mcBatch X noise S).map model) X.length s t
      = model ((noisyCopy X noise s).getD t []) := by
  have hcopies : ∀ l ∈ (List.range S).map (noisyCopy X noise),
      l.length = X.length := by
    intro l hl
    obtain ⟨j, _, rfl⟩ := List.mem_map.mp hl
    exact noisyCopy_length X noise j
  have hlenflat : (mcBatch X noise S).length = S * X.length := by
    rw [mcBatch, length_flatten_uniform X.length _ hcopies,
      List.length_map, List.length_range]
  have hidx : s * X.length + t < (mcBatch X noise S).length := by
    rw [hlenflat]
    calc s * X.length + t < s * X.length + X.length := by omega
    _ = (s + 1) * X.length := by ring
    _ ≤ S * X.length := Nat.mul_le_mul_right _ (by omega)
  rw [reshaped, getD_map_lt model _ _ hidx 0 []]
  rw [mcBatch, flatten_getD_uniform X.length [] _ s t hcopies (by simpa using hs) ht]
  rw [getD_map_lt (noisyCopy X noise) _ _ (by simpa using hs) [] 0,
    getD_range_lt S s 0 hs]

/-- The per-time-step value of `np.mean(predictions, axis=0)`: the
empirical mean of the model's outputs on the perturbed copies. -/
theorem mcMeanPred_getD (model : List ℚ → ℚ) (X : List (List ℚ))
    (ns : Nat) (noise : Nat → Nat → Nat → ℚ) (t : Nat) (ht : t < X.length) :
    (mcMeanPred model X ns noise).getD t 0
      = npMean ((List.range (mcSamples X ns)).map
          (fun s => model ((noisyCopy X noise s).getD t []))) := by
  rw [mcMeanPred, getD_map_lt _ _ _ (by simpa using ht) 0 0]
  simp only [getD_range_lt X.length t 0 ht]
  have hcong : ((List.range (mcSamples X ns)).map (fun s =>
      reshaped (mcPredictions model X ns noise) X.length s t))
      = (List.range (mcSamples X ns)).map
          (fun s => model ((noisyCopy X noise s).getD t [])) := by
    apply List.map_congr_left
    intro s hs
    rw [mcPredictions]
    exact reshaped_predictions model X noise (mcSamples X ns) s t
      (List.mem_range.mp hs) ht
  rw [hcong, npMean, List.length_map, List.length_range]

/-- C3: in the Monte Carlo branch (the predictor does not natively emit a
distribution), `predict_with_uncertainty` perturbs `X` elementwise once
per sample, runs inference on all perturbed copies, and returns per time
step the empirical mean and the empirical variance (the square of the
reported `np.std` standard deviation) across the samples; the number of
samples used is `num_samples`, capped to `min(20, num_samples)` exactly
when `len(X) > 1000`.  The Gaussian draws are abstracted as the function
`noise`. -/
theorem predict_with_uncertainty_mc (model : List ℚ → ℚ)
    (X : List (List ℚ)) (ns : Nat) (noise : Nat → Nat → Nat → ℚ)
    (t : Nat) (ht : t < X.length) :
    (predict_with_uncertainty model X ns noise).1.length = X.length ∧
    (predict_with_uncertainty model X ns noise).2.length = X.length ∧
    (predict_with_uncertainty model X ns noise).1.getD t 0
      = npMean ((List.range (mcSamples X ns)).map
          (fun s => model ((noisyCopy X noise s).getD t []))) ∧
    (predict_with_uncertainty model X ns noise).2.getD t 0
      = npMean ((List.range (mcSamples X ns)).map
          (fun s => (model ((noisyCopy X noise s).getD t [])
            - (predict_with_uncertainty model X ns noise).1.getD t 0) ^ 2)) ∧
    (1000 < X.length → mcSamples X ns = min 20 ns) ∧
    (X.length ≤ 1000 → mcSamples X ns = ns) := by
  refine ⟨by simp [predict_with_uncertainty, mcMeanPred],
    by simp [predict_with_uncertainty, mcVarPred],
    mcMeanPred_getD model X ns noise t ht, ?_,
    fun h => by simp [mcSamples, h],
    fun h => by simp [mcSamples, Nat.not_lt.mpr h]⟩
  show (mcVarPred model X ns noise).getD t 0 = _
  rw [mcVarPred, getD_map_lt _ _ _ (by simpa using ht) 0 0]
  simp only [getD_range_lt X.length t 0 ht]
  have hcong : ((List.range (mcSamples X ns)).map (fun s =>
      (reshaped (mcPredictions model X ns noise) X.length s t
        - (mcMeanPred model X ns noise).getD t 0) ^ 2))
      = (List.range (mcSamples X ns)).map
          (fun s => (model ((noisyCopy X noise s).getD t [])
            - (predict_with_uncertainty model X ns noise).1.getD t 0) ^ 2) := by
    apply List.map_congr_left
    intro s hs
    rw [mcPredictions, reshaped_predictions model X noise (mcSamples X ns) s t
      (List.mem_range.mp hs) ht]
    rfl
  rw [hcong, npMean, List.length_map, List.length_range]

/-- C3 witness: a one-row input below the cap threshold with one sample,
zero noise draws and a summing model. -/
theorem predict_with_uncertainty_mc_witness :
    ((0 : Nat) < ([[(1 : ℚ)]] : List (List ℚ)).length) ∧
    ((predict_with_uncertainty List.sum [[(1 : ℚ)]] 1 (fun _ _ _ => 0)).1.length
        = ([[(1 : ℚ)]] : List (List ℚ)).length ∧
     (predict_with_uncertainty List.sum [[(1 : ℚ)]] 1 (fun _ _ _ => 0)).2.length
        = ([[(1 : ℚ)]] : List (List ℚ)).length ∧
     (predict_with_uncertainty List.sum [[(1 : ℚ)]] 1 (fun _ _ _ => 0)).1.getD 0 0
        = npMean ((List.range (mcSamples [[(1 : ℚ)]] 1)).map
            (fun s => List.sum ((noisyCopy [[(1 : ℚ)]] (fun _ _ _ => 0) s).getD 0 []))) ∧
     (predict_with_uncertainty List.sum [[(1 : ℚ)]] 1 (fun _ _ _ => 0)).2.getD 0 0
        = npMean ((List.range (mcSamples [[(1 : ℚ)]] 1)).map
            (fun s => (List.sum ((noisyCopy [[(1 : ℚ)]] (fun _ _ _ => 0) s).getD 0 [])
              - (predict_with_uncertainty List.sum [[(1 : ℚ)]] 1 (fun _ _ _ => 0)).1.getD 0 0) ^ 2)) ∧
     (1000 < ([[(1 : ℚ)]] : List (List ℚ)).length → mcSamples [[(1 : ℚ)]] 1 = min 20 1) ∧
     (([[(1 : ℚ)]] : List (List ℚ)).length ≤ 1000 → mcSamples [[(1 : ℚ)]] 1 = 1)) :=
  ⟨by decide,
   predict_with_uncertainty_mc List.sum [[(1 : ℚ)]] 1 (fun _ _ _ => 0) 0 (by decide)⟩

/-- A fillna with any value leaves a NaN-free column unchanged. -/
theorem fillnaCol_all_some (c : Col) (h : ∀ o ∈ c, o.isSome = true)
    (v : Option ℚ) : fillnaCol c v = c := by
  rw [fillnaCol]
  have : c.map (fun o => o.orElse (fun _ => v)) = c.map (fun o => o) := by
    apply List.map_congr_left
    intro o ho
    obtain ⟨x, rfl⟩ := Option.isSome_iff_exists.mp (h o ho)
    rfl
  rw [this, List.map_id']

/-- C7: on a NaN-free column of zero variance, `stats.zscore` produces
the all-NaN column (the `0/0` division yields NaN, not an exception), the
NaN z-scores compare False against the threshold so no cell is masked,
and the outlier step returns the column's values unchanged. -/
theorem outlier_zero_variance_unchanged (c : Col) (tSq : ℚ)
    (hsome : ∀ o ∈ c, o.isSome = true) (hvar : colPopVar c = 0) :
    zscoreSqCol c = c.map (fun _ => none) ∧ outlierCol c tSq = c := by
  have hany : c.any (fun o => o.isNone) = false := by
    rw [List.any_eq_false]
    intro o ho
    obtain ⟨x, rfl⟩ := Option.isSome_iff_exists.mp (hsome o ho)
    simp
  have hz : zscoreSqCol c = c.map (fun _ => none) := by
    rw [zscoreSqCol, if_neg (by simp [hany])]
    apply List.map_congr_left
    intro o _
    obtain ⟨x, rfl⟩ | rfl : (∃ x, o = some x) ∨ o = none := by
      cases o with
      | none => exact Or.inr rfl
      | some x => exact Or.inl ⟨x, rfl⟩
    · simp [hvar]
    · rfl
  have hmask : maskCol c (zscoreSqCol c) tSq = c := by
    rw [hz, maskCol, List.zipWith_map_right]
    have : List.zipWith (fun o (_ : Option ℚ) => o) c c
        = c.map (fun o => o) := List.zipWith_same _ _
    rw [this, List.map_id']
  rw [outlierCol, hmask]
  exact ⟨hz, fillnaCol_all_some c hsome _⟩

/-- C7 witness: a constant column passes through the outlier step
unchanged, with all-NaN z-scores. -/
theorem outlier_zero_variance_unchanged_witness :
    (∀ o ∈ ([some 5, some 5] : Col), o.isSome = true) ∧
    colPopVar [some 5, some 5] = 0 ∧
    (zscoreSqCol [some 5, some 5] = ([some 5, some 5] : Col).map (fun _ => none) ∧
     outlierCol [some 5, some 5] 9 = [some 5, some 5]) :=
  ⟨by decide,
   by
     have hsv : someVals [some 5, some 5] = [(5 : ℚ), 5] := rfl
     norm_num [colPopVar, colMeanVal, hsv],
   outlier_zero_variance_unchanged [some 5, some 5] 9 (by decide)
     (by
       have hsv : someVals [some 5, some 5] = [(5 : ℚ), 5] := rfl
       norm_num [colPopVar, colMeanVal, hsv])⟩

/-- The lag-feature names a variable contributes, in creation order. -/
def lagNames (var : String) (k : Nat) : List String :=
  (List.range k).map (fun j => lagName var (j + 1))

/-- The lag columns a variable contributes: names paired with the shifted
copies of the variable's column. -/
def lagZip (var : String) (k : Nat) (c : Col) : List (String × Col) :=
  (List.range k).map (fun j => (lagName var (j + 1), pdShiftCol (j + 1) c))

/-- Appending strings concatenates their character lists. -/
theorem string_toList_append (a b : String) :
    (a ++ b).toList = a.toList ++ b.toList := by
  show (a ++ b).data = a.data ++ b.data
  exact String.data_append a b

/-- Every generated lag-column name contains the "_Lag_" marker the
dropna subset selection looks for. -/
theorem strContains_lagName (v : String) (n : Nat) :
    strContains (lagName v n) "_Lag_" = true := by
  rw [strContains, lagName, charsContain, List.any_eq_true]
  refine ⟨v.toList.length, ?_, ?_⟩
  · rw [List.mem_range, string_toList_append, string_toList_append]
    rw [List.length_append, List.length_append]
    omega
  · rw [string_toList_append, string_toList_append, List.append_assoc,
      List.drop_left]
    exact List.isPrefixOf_iff_prefix.mpr (List.prefix_append _ _)

/-- First-match association lookup on a frame whose column names are
distinct finds the stored column. -/
theorem find?_assoc_nodup {β : Type} :
    ∀ (l : List (String × β)) (nm : String) (v : β),
      (l.map Prod.fst).Nodup → (nm, v) ∈ l →
      l.find? (fun p => p.1 == nm) = some (nm, v) := by
  intro l
  induction l with
  | nil => intro nm v _ hmem; exact absurd hmem (by simp)
  | cons a rest ih =>
    intro nm v hnd hmem
    rw [List.map_cons, List.nodup_cons] at hnd
    by_cases hab : a.1 = nm
    · have hval : a = (nm, v) := by
        rcases List.mem_cons.mp hmem with h | h
        · exact h.symm
        · exfalso
          apply hnd.1
          rw [hab]
          exact List.mem_map.mpr ⟨(nm, v), h, rfl⟩
      rw [List.find?_cons, hval]
      simp
    · have hmem' : (nm, v) ∈ rest := by
        rcases List.mem_cons.mp hmem with h | h
        · exact absurd (congrArg Prod.fst h.symm) hab
        · exact h
      rw [List.find?_cons]
      have : (a.1 == nm) = false := beq_eq_false_iff_ne.mpr hab
      rw [this]
      exact ih nm v hnd.2 hmem'

/-- hasCol distributes over column-list concatenation. -/
theorem hasCol_append (l₁ l₂ : List (String × Col)) (nm : String) :
    DataFrame.hasCol ⟨l₁ ++ l₂⟩ nm
      = (DataFrame.hasCol ⟨l₁⟩ nm || DataFrame.hasCol ⟨l₂⟩ nm) := by
  simp [DataFrame.hasCol, List.any_append]

/-- Looking up a column that exists in the left part of a concatenated
column list ignores the right part. -/
theorem getCol_append_left (l₁ l₂ : List (String × Col)) (nm : String)
    (h : DataFrame.hasCol ⟨l₁⟩ nm = true) :
    DataFrame.getCol ⟨l₁ ++ l₂⟩ nm = DataFrame.getCol ⟨l₁⟩ nm := by
  rw [DataFrame.getCol, DataFrame.getCol]
  show ((((l₁ ++ l₂).find? (fun c => c.1 == nm))).map (fun c => c.2)).getD []
    = (((l₁.find? (fun c => c.1 == nm))).map (fun c => c.2)).getD []
  rw [List.find?_append]
  rw [DataFrame.hasCol] at h
  obtain ⟨x, hx, hpx⟩ := List.any_eq_true.mp h
  have hsome : (List.find? (fun c : String × Col => c.1 == nm) l₁).isSome :=
    List.find?_isSome.mpr ⟨x, hx, hpx⟩
  obtain ⟨y, hy⟩ := Option.isSome_iff_exists.mp hsome
  rw [hy]
  rfl

/-- Assigning a fresh column name appends it on the right. -/
theorem setCol_fresh (df : DataFrame) (nm : String) (c : Col)
    (h : df.hasCol nm = false) :
    df.setCol nm c = ⟨df.cols ++ [(nm, c)]⟩ := by
  rw [DataFrame.setCol, h]
  rfl

/-- The names stored in a lag-column block are the lag names. -/
theorem lagZip_map_fst (var : String) (k : Nat) (c : Col) :
    (lagZip var k c).map Prod.fst = lagNames var k := by
  rw [lagZip, lagNames, List.map_map]
  rfl

/-- A lag-column block answers hasCol exactly for its lag names. -/
theorem hasCol_lagZip (var : String) (k : Nat) (c : Col) (nm : String) :
    DataFrame.hasCol ⟨lagZip var k c⟩ nm = decide (nm ∈ lagNames var k) := by
  rw [DataFrame.hasCol]
  by_cases h : nm ∈ lagNames var k
  · rw [decide_eq_true h]
    rw [← lagZip_map_fst var k c] at h
    obtain ⟨p, hp, hfst⟩ := List.mem_map.mp h
    exact List.any_eq_true.mpr ⟨p, hp, by rw [hfst]; exact beq_self_eq_true nm⟩
  · rw [decide_eq_false h]
    rw [List.any_eq_false]
    intro p hp hbeq
    apply h
    rw [← lagZip_map_fst var k c]
    have : p.1 = nm := by simpa using hbeq
    rw [← this]
    exact List.mem_map.mpr ⟨p, hp, rfl⟩

/-- Unfolding of `addLags`: with the lag names fresh and mutually
distinct, the fold appends exactly the lag-column block built from the
variable's (unchanged) column and returns the lag names. -/
theorem addLags_spec (df : DataFrame) (var : String) :
    ∀ (k : Nat), df.hasCol var = true →
      (∀ nm ∈ lagNames var k, df.hasCol nm = false) →
      (lagNames var k).Nodup →
      addLags df var k = (⟨df.cols ++ lagZip var k (df.getCol var)⟩,
        lagNames var k) := by
  intro k
  induction k with
  | zero =>
    intro _ _ _
    show (df, ([] : List String)) = _
    simp [lagZip, lagNames]
  | succ k ih =>
    intro hv hfresh hnd
    have hsplit : lagNames var (k + 1)
        = lagNames var k ++ [lagName var (k + 1)] := by
      rw [lagNames, lagNames, List.range_succ, List.map_append]
      rfl
    rw [hsplit] at hnd
    have hndparts := List.nodup_append.mp hnd
    have hsub : ∀ nm ∈ lagNames var k, df.hasCol nm = false := by
      intro nm hnm
      apply hfresh
      rw [hsplit]
      exact List.mem_append_left _ hnm
    have hlast : lagName var (k + 1) ∉ lagNames var k := by
      intro hmem
      exact hndparts.2.2 hmem (List.mem_singleton_self _)
    have hIH := ih hv hsub hndparts.1
    rw [addLags, List.range_succ, List.foldl_append]
    rw [addLags] at hIH
    rw [hIH]
    simp only [List.foldl_cons, List.foldl_nil]
    have hgetvar : DataFrame.getCol ⟨df.cols ++ lagZip var k (df.getCol var)⟩ var
        = df.getCol var := by
      rw [getCol_append_left df.cols _ var hv]
    have hnew : DataFrame.hasCol ⟨df.cols ++ lagZip var k (df.getCol var)⟩
        (lagName var (k + 1)) = false := by
      rw [hasCol_append]
      have h1 : df.hasCol (lagName var (k + 1)) = false := by
        apply hfresh
        rw [hsplit]
        exact List.mem_append_right _ (by simp)
      have h2 : DataFrame.hasCol ⟨lagZip var k (df.getCol var)⟩
          (lagName var (k + 1)) = false := by
        rw [hasCol_lagZip]
        exact decide_eq_false hlast
      show (df.hasCol (lagName var (k + 1))
        || DataFrame.hasCol ⟨lagZip var k (df.getCol var)⟩ (lagName var (k + 1)))
          = false
      rw [h1, h2]
      rfl
    rw [hgetvar, setCol_fresh _ _ _ hnew]
    have hzip : (df.cols ++ lagZip var k (df.getCol var))
        ++ [(lagName var (k + 1), pdShiftCol (k + 1) (df.getCol var))]
        = df.cols ++ lagZip var (k + 1) (df.getCol var) := by
      rw [List.append_assoc]
      have : lagZip var k (df.getCol var)
          ++ [(lagName var (k + 1), pdShiftCol (k + 1) (df.getCol var))]
          = lagZip var (k + 1) (df.getCol var) := by
        rw [lagZip, lagZip, List.range_succ, List.map_append]
        rfl
      rw [this]
    rw [hzip, ← hsplit]

/-- Availability of cell `i` of a shifted NaN-free column: present
exactly when the row has a full window of `lag` history. -/
theorem pdShiftCol_getD_isSome (lag : Nat) (c : Col)
    (hc : ∀ o ∈ c, o.isSome = true) (i : Nat) (hi : i < c.length) :
    ((pdShiftCol lag c).getD i none).isSome = decide (lag ≤ i) := by
  rw [pdShiftCol]
  by_cases hil : i < min lag c.length
  · have hrep : i < (List.replicate (min lag c.length)
        (none : Option ℚ)).length := by
      rw [List.length_replicate]; exact hil
    rw [List.getD_append _ _ _ _ hrep,
      List.getD_eq_getElem _ _ hrep, List.getElem_replicate]
    have : ¬ lag ≤ i := by omega
    simp [this]
  · have hln : lag ≤ c.length := by omega
    have hmin : min lag c.length = lag := Nat.min_eq_left hln
    have hli : lag ≤ i := by omega
    have hrep : (List.replicate (min lag c.length)
        (none : Option ℚ)).length = lag := by
      rw [List.length_replicate, hmin]
    have htake : ∀ (d : Col) (m j : Nat), j < m →
        (d.take m).getD j none = d.getD j none := by
      intro d
      induction d with
      | nil => intro m j _; rw [List.take_nil]
      | cons a d ihd =>
        intro m j hj
        cases m with
        | zero => omega
        | succ m =>
          rw [List.take_succ_cons]
          cases j with
          | zero => rfl
          | succ j =>
            rw [List.getD_cons_succ, List.getD_cons_succ, ihd m j (by omega)]
    rw [List.getD_append_right _ _ _ _ (by omega), hrep,
      htake c _ _ (by omega)]
    have hmemd : c.getD (i - lag) none ∈ c := by
      rw [List.getD_eq_getElem _ _ (by omega)]
      exact List.getElem_mem _
    rw [hc _ hmemd]
    simp [hli]

/-- Counting the indices at or beyond the lag window. -/
theorem filter_range_count (k : Nat) :
    ∀ n, ((List.range n).filter (fun i => decide (k ≤ i))).length = n - k := by
  intro n
  induction n with
  | zero => simp
  | succ n ih =>
    rw [List.range_succ, List.filter_append, List.length_append, ih]
    by_cases h : k ≤ n
    · simp [h]
      omega
    · simp [h]
      omega

/-- The kept indices are exactly the contiguous block from `k` on. -/
theorem filter_range_eq_range' (k : Nat) :
    ∀ n, (List.range n).filter (fun i => decide (k ≤ i))
      = List.range' k (n - k) := by
  intro n
  induction n with
  | zero => simp
  | succ n ih =>
    rw [List.range_succ, List.filter_append, ih]
    by_cases h : k ≤ n
    · have hf : [n].filter (fun i => decide (k ≤ i)) = [n] := by simp [h]
      rw [hf]
      have hn : n + 1 - k = (n - k) + 1 := by omega
      rw [hn, List.range'_concat]
      have : k + 1 * (n - k) = n := by omega
      rw [this]
    · have hf : [n].filter (fun i => decide (k ≤ i)) = [] := by simp [h]
      have h0 : n - k = 0 := by omega
      have h1 : n + 1 - k = 0 := by omega
      rw [hf, h0, h1, List.append_nil]

/-- Shifting the start of an index block past a cons cell. -/
theorem map_getD_cons_range' (a : Option ℚ) (c : Col) :
    ∀ (m s : Nat),
      (List.range' (s + 1) m).map (fun i => (a :: c).getD i none)
        = (List.range' s m).map (fun i => c.getD i none) := by
  intro m
  induction m with
  | zero => intro s; rfl
  | succ m ih =>
    intro s
    rw [List.range'_succ, List.range'_succ, List.map_cons, List.map_cons,
      List.getD_cons_succ, ih (s + 1)]

/-- Reading the tail block of indices off a column is dropping its head
part. -/
theorem range'_map_getD_eq_drop :
    ∀ (c : Col) (k : Nat),
      (List.range' k (c.length - k)).map (fun i => c.getD i none) = c.drop k := by
  intro c
  induction c with
  | nil => intro k; simp
  | cons a c ih =>
    intro k
    cases k with
    | zero =>
      rw [List.drop_zero, Nat.sub_zero, List.length_cons, List.range'_succ,
        List.map_cons, List.getD_cons_zero, map_getD_cons_range' a c _ 0]
      have := ih 0
      rw [Nat.sub_zero, List.drop_zero] at this
      rw [this]
    | succ k =>
      have hlen : (a :: c).length - (k + 1) = c.length - k := by
        rw [List.length_cons]; omega
      rw [hlen, map_getD_cons_range' a c _ k, ih k, List.drop_succ_cons]

/-- Row count of the frame produced by filtering and zero-filling a
frame whose first column is `c`. -/
theorem nRows_fillZero_filterRows (df : DataFrame) (nm : String) (c : Col)
    (rest : List (String × Col)) (keep : Nat → Bool)
    (hhead : df.cols = (nm, c) :: rest) :
    (fillZeroStep (df.filterRows keep)).nRows
      = ((List.range c.length).filter keep).length := by
  rw [DataFrame.filterRows, hhead]
  show (fillnaCol (idxFilter c keep) (some 0)).length = _
  rw [fillnaCol, List.length_map, idxFilter, List.length_map]

/-- Column lookup of the second column through filtering and
zero-filling. -/
theorem getCol_fillZero_filterRows_snd (df : DataFrame)
    (nm1 nm2 : String) (c1 c2 : Col)
    (rest : List (String × Col)) (keep : Nat → Bool)
    (h12 : (nm1 == nm2) = false)
    (hhead : df.cols = (nm1, c1) :: (nm2, c2) :: rest) :
    DataFrame.getCol (fillZeroStep (df.filterRows keep)) nm2
      = fillnaCol (idxFilter c2 keep) (some 0) := by
  rw [DataFrame.filterRows, hhead]
  rw [DataFrame.getCol]
  show ((List.find? (fun p => p.1 == nm2)
      ((nm1, fillnaCol (idxFilter c1 keep) (some 0))
        :: (nm2, fillnaCol (idxFilter c2 keep) (some 0))
        :: (rest.map (fun p => (p.1, idxFilter p.2 keep))).map
            (fun p => (p.1, fillnaCol p.2 (some 0))))).map
      (fun p => p.2)).getD [] = _
  rw [List.find?_cons_of_neg _ (by simp [h12]),
    List.find?_cons_of_pos _ (by simp)]
  rfl

/-- C2: for a table with one `Dynamic` input column and an output column,
both free of missing values, with `lag_count = k ≥ 1` lags requested,
`preprocess_data` returns the lag-feature list
`x_Lag_1..k, y_Lag_1..k`, keeps exactly the rows with a full lag window
(the output column of the result is the input output column with its
first `k` rows dropped), and the number of usable rows in the returned
table is `original_rows − lag_count`.  The `Nodup` hypothesis records
that the generated lag-column names are pairwise distinct and distinct
from the base columns (true for the decimal rendering of indices, and
checkable on any instance). -/
theorem preprocess_lag_row_count (xs ys : List ℚ) (k : Nat)
    (hk : 1 ≤ k) (hlen : ys.length = xs.length)
    (hnodup : ("x" :: "y" :: (lagNames "x" k ++ lagNames "y" k)).Nodup) :
    (preprocess_data ⟨[("x", xs.map some), ("y", ys.map some)]⟩ ["x"] "y"
        [("x", "Dynamic")] k "median" false 9).2
      = lagNames "x" k ++ lagNames "y" k ∧
    (preprocess_data ⟨[("x", xs.map some), ("y", ys.map some)]⟩ ["x"] "y"
        [("x", "Dynamic")] k "median" false 9).1.nRows = xs.length - k ∧
    (preprocess_data ⟨[("x", xs.map some), ("y", ys.map some)]⟩ ["x"] "y"
        [("x", "Dynamic")] k "median" false 9).1.getCol "y"
      = (ys.drop k).map some := by
  -- dissect the distinctness hypothesis
  rw [List.nodup_cons] at hnodup
  obtain ⟨hxnot, hnodup⟩ := hnodup
  rw [List.nodup_cons] at hnodup
  obtain ⟨hynot, hnodup⟩ := hnodup
  obtain ⟨hndx, hndy, hdisj⟩ := List.nodup_append.mp hnodup
  have hxne : ∀ nm ∈ lagNames "x" k ++ lagNames "y" k, nm ≠ "x" := by
    intro nm hnm heq
    exact hxnot (List.mem_cons_of_mem _ (heq ▸ hnm))
  have hyne : ∀ nm ∈ lagNames "x" k ++ lagNames "y" k, nm ≠ "y" := by
    intro nm hnm heq
    exact hynot (heq ▸ hnm)
  have hXs : ∀ o ∈ xs.map some, o.isSome = true := by
    intro o ho
    obtain ⟨x, _, rfl⟩ := List.mem_map.mp ho
    rfl
  have hYs : ∀ o ∈ ys.map some, o.isSome = true := by
    intro o ho
    obtain ⟨y, _, rfl⟩ := List.mem_map.mp ho
    rfl
  -- the missing-value pass leaves the NaN-free frame unchanged
  have hfillx : handleMissingCol "median"
      (DataFrame.getCol ⟨[("x", xs.map some), ("y", ys.map some)]⟩ "x")
      = xs.map some := by
    show fillnaCol (xs.map some) (colMedian (xs.map some)) = xs.map some
    exact fillnaCol_all_some _ hXs _
  have hfilly : handleMissingCol "median"
      (DataFrame.getCol ⟨[("x", xs.map some), ("y", ys.map some)]⟩ "y")
      = ys.map some := by
    show fillnaCol (ys.map some) (colMedian (ys.map some)) = ys.map some
    exact fillnaCol_all_some _ hYs _
  have hfill : fillMissingStep ⟨[("x", xs.map some), ("y", ys.map some)]⟩
      ["x", "y"] "median" = ⟨[("x", xs.map some), ("y", ys.map some)]⟩ := by
    rw [fillMissingStep, List.foldl_cons, hfillx]
    have h1 : (⟨[("x", xs.map some), ("y", ys.map some)]⟩ : DataFrame).setCol
        "x" (xs.map some) = ⟨[("x", xs.map some), ("y", ys.map some)]⟩ := rfl
    rw [h1, List.foldl_cons, hfilly]
    have h2 : (⟨[("x", xs.map some), ("y", ys.map some)]⟩ : DataFrame).setCol
        "y" (ys.map some) = ⟨[("x", xs.map some), ("y", ys.map some)]⟩ := rfl
    rw [h2, List.foldl_nil]
  -- lag expansion of the input variable
  have hfreshx : ∀ nm ∈ lagNames "x" k,
      (⟨[("x", xs.map some), ("y", ys.map some)]⟩ : DataFrame).hasCol nm
        = false := by
    intro nm hnm
    have h1 : ("x" == nm) = false := beq_eq_false_iff_ne.mpr
      (fun h => hxne nm (List.mem_append_left _ hnm) h.symm)
    have h2 : ("y" == nm) = false := beq_eq_false_iff_ne.mpr
      (fun h => hyne nm (List.mem_append_left _ hnm) h.symm)
    show (("x" == nm) || (("y" == nm) || false)) = false
    rw [h1, h2]
    rfl
  have hxlag : addLags ⟨[("x", xs.map some), ("y", ys.map some)]⟩ "x" k
      = (⟨[("x", xs.map some), ("y", ys.map some)]
            ++ lagZip "x" k (xs.map some)⟩, lagNames "x" k) :=
    addLags_spec ⟨[("x", xs.map some), ("y", ys.map some)]⟩ "x" k rfl
      hfreshx hndx
  -- lag expansion of the output variable on the extended frame
  have hvy : DataFrame.hasCol
      ⟨[("x", xs.map some), ("y", ys.map some)] ++ lagZip "x" k (xs.map some)⟩
      "y" = true := by
    rw [hasCol_append]
    show (true || _) = true
    rfl
  have hfreshy : ∀ nm ∈ lagNames "y" k,
      DataFrame.hasCol
        ⟨[("x", xs.map some), ("y", ys.map some)] ++ lagZip "x" k (xs.map some)⟩
        nm = false := by
    intro nm hnm
    rw [hasCol_append]
    have h1 : ("x" == nm) = false := beq_eq_false_iff_ne.mpr
      (fun h => hxne nm (List.mem_append_right _ hnm) h.symm)
    have h2 : ("y" == nm) = false := beq_eq_false_iff_ne.mpr
      (fun h => hyne nm (List.mem_append_right _ hnm) h.symm)
    have hz : DataFrame.hasCol ⟨lagZip "x" k (xs.map some)⟩ nm = false := by
      rw [hasCol_lagZip]
      exact decide_eq_false (fun hmem => hdisj hmem hnm)
    show ((("x" == nm) || (("y" == nm) || false))
      || DataFrame.hasCol ⟨lagZip "x" k (xs.map some)⟩ nm) = false
    rw [h1, h2, hz]
    rfl
  have hgety : DataFrame.getCol
      ⟨[("x", xs.map some), ("y", ys.map some)] ++ lagZip "x" k (xs.map some)⟩
      "y" = ys.map some := by
    rw [getCol_append_left _ _ _ (show DataFrame.hasCol
      ⟨[("x", xs.map some), ("y", ys.map some)]⟩ "y" = true from rfl)]
    rfl
  have hylag : addLags
      ⟨[("x", xs.map some), ("y", ys.map some)] ++ lagZip "x" k (xs.map some)⟩
      "y" k
      = (⟨([("x", xs.map some), ("y", ys.map some)]
            ++ lagZip "x" k (xs.map some)) ++ lagZip "y" k (ys.map some)⟩,
         lagNames "y" k) := by
    rw [addLags_spec _ "y" k hvy hfreshy hndy, hgety]
  -- the full preprocessing call, reduced
  have hpp : preprocess_data ⟨[("x", xs.map some), ("y", ys.map some)]⟩
      ["x"] "y" [("x", "Dynamic")] k "median" false 9
      = (fillZeroStep (dropnaStep
          (lagAll (fillMissingStep ⟨[("x", xs.map some), ("y", ys.map some)]⟩
            ["x", "y"] "median") ["x"] "y" [("x", "Dynamic")] k).1
          (lagAll (fillMissingStep ⟨[("x", xs.map some), ("y", ys.map some)]⟩
            ["x", "y"] "median") ["x"] "y" [("x", "Dynamic")] k).2),
        (lagAll (fillMissingStep ⟨[("x", xs.map some), ("y", ys.map some)]⟩
            ["x", "y"] "median") ["x"] "y" [("x", "Dynamic")] k).2) := rfl
  have hlagall : lagAll ⟨[("x", xs.map some), ("y", ys.map some)]⟩
      ["x"] "y" [("x", "Dynamic")] k
      = (⟨([("x", xs.map some), ("y", ys.map some)]
            ++ lagZip "x" k (xs.map some)) ++ lagZip "y" k (ys.map some)⟩,
         lagNames "x" k ++ lagNames "y" k) := by
    have hlin : lagInput ⟨[("x", xs.map some), ("y", ys.map some)]⟩
        ["x"] [("x", "Dynamic")] k
        = ((addLags ⟨[("x", xs.map some), ("y", ys.map some)]⟩ "x" k).1,
           [] ++ (addLags ⟨[("x", xs.map some), ("y", ys.map some)]⟩ "x" k).2) :=
      rfl
    rw [lagAll, hlin, hxlag]
    dsimp only
    rw [hylag]
    dsimp only
    rw [List.nil_append]
  rw [hpp, hfill, hlagall]
  dsimp only
  -- dropna keeps every feature name (they all contain the marker)
  have hfiltFC : (lagNames "x" k ++ lagNames "y" k).filter
      (fun c => strContains c "_Lag_") = lagNames "x" k ++ lagNames "y" k := by
    rw [List.filter_eq_self]
    intro c hc
    rcases List.mem_append.mp hc with h | h
    · rw [lagNames] at h
      obtain ⟨j, _, rfl⟩ := List.mem_map.mp h
      exact strContains_lagName _ _
    · rw [lagNames] at h
      obtain ⟨j, _, rfl⟩ := List.mem_map.mp h
      exact strContains_lagName _ _
  have hne : (lagNames "x" k ++ lagNames "y" k).isEmpty = false := by
    rw [List.isEmpty_eq_false]
    intro hempty
    rw [List.append_eq_nil] at hempty
    have h1 := hempty.1
    rw [lagNames, List.map_eq_nil_iff, List.range_eq_nil] at h1
    omega
  have hdrop : dropnaStep
      ⟨([("x", xs.map some), ("y", ys.map some)]
          ++ lagZip "x" k (xs.map some)) ++ lagZip "y" k (ys.map some)⟩
      (lagNames "x" k ++ lagNames "y" k)
      = DataFrame.filterRows
          ⟨([("x", xs.map some), ("y", ys.map some)]
              ++ lagZip "x" k (xs.map some)) ++ lagZip "y" k (ys.map some)⟩
          (fun i => (lagNames "x" k ++ lagNames "y" k).all
            (fun c => ((DataFrame.getCol
              ⟨([("x", xs.map some), ("y", ys.map some)]
                  ++ lagZip "x" k (xs.map some)) ++ lagZip "y" k (ys.map some)⟩
              c).getD i none).isSome)) := by
    rw [dropnaStep, hfiltFC, hne]
    rfl
  -- reading the lag columns back out of the assembled frame
  have hgetlagx : ∀ j < k, DataFrame.getCol
      ⟨([("x", xs.map some), ("y", ys.map some)]
          ++ lagZip "x" k (xs.map some)) ++ lagZip "y" k (ys.map some)⟩
      (lagName "x" (j + 1)) = pdShiftCol (j + 1) (xs.map some) := by
    intro j hj
    have hmemx : lagName "x" (j + 1) ∈ lagNames "x" k := by
      rw [lagNames]
      exact List.mem_map.mpr ⟨j, List.mem_range.mpr hj, rfl⟩
    have hA : List.find? (fun c => c.1 == lagName "x" (j + 1))
        [("x", xs.map some), ("y", ys.map some)] = none := by
      rw [List.find?_eq_none]
      intro p hp
      have hp1 : p.1 = "x" ∨ p.1 = "y" := by
        rcases List.mem_cons.mp hp with h | h
        · exact Or.inl (by rw [h])
        · rcases List.mem_cons.mp h with h2 | h2
          · exact Or.inr (by rw [h2])
          · exact absurd h2 (by simp)
      rcases hp1 with h1 | h1 <;> rw [h1] <;> simp
      · exact fun heq => hxne _ (List.mem_append_left _ hmemx) heq.symm
      · exact fun heq => hyne _ (List.mem_append_left _ hmemx) heq.symm
    have hB : List.find? (fun c => c.1 == lagName "x" (j + 1))
        (lagZip "x" k (xs.map some))
        = some (lagName "x" (j + 1), pdShiftCol (j + 1) (xs.map some)) := by
      apply find?_assoc_nodup
      · rw [lagZip_map_fst]; exact hndx
      · rw [lagZip]
        exact List.mem_map.mpr ⟨j, List.mem_range.mpr hj, rfl⟩
    rw [DataFrame.getCol]
    show ((List.find? (fun c => c.1 == lagName "x" (j + 1))
      (([("x", xs.map some), ("y", ys.map some)]
        ++ lagZip "x" k (xs.map some)) ++ lagZip "y" k (ys.map some))).map
        (fun c => c.2)).getD [] = _
    rw [List.find?_append, List.find?_append, hA, hB]
    rfl
  have hgetlagy : ∀ j < k, DataFrame.getCol
      ⟨([("x", xs.map some), ("y", ys.map some)]
          ++ lagZip "x" k (xs.map some)) ++ lagZip "y" k (ys.map some)⟩
      (lagName "y" (j + 1)) = pdShiftCol (j + 1) (ys.map some) := by
    intro j hj
    have hmemy : lagName "y" (j + 1) ∈ lagNames "y" k := by
      rw [lagNames]
      exact List.mem_map.mpr ⟨j, List.mem_range.mpr hj, rfl⟩
    have hA : List.find? (fun c => c.1 == lagName "y" (j + 1))
        [("x", xs.map some), ("y", ys.map some)] = none := by
      rw [List.find?_eq_none]
      intro p hp
      have hp1 : p.1 = "x" ∨ p.1 = "y" := by
        rcases List.mem_cons.mp hp with h | h
        · exact Or.inl (by rw [h])
        · rcases List.mem_cons.mp h with h2 | h2
          · exact Or.inr (by rw [h2])
          · exact absurd h2 (by simp)
      rcases hp1 with h1 | h1 <;> rw [h1] <;> simp
      · exact fun heq => hxne _ (List.mem_append_right _ hmemy) heq.symm
      · exact fun heq => hyne _ (List.mem_append_right _ hmemy) heq.symm
    have hB : List.find? (fun c => c.1 == lagName "y" (j + 1))
        (lagZip "x" k (xs.map some)) = none := by
      rw [List.find?_eq_none]
      intro p hp
      rw [lagZip] at hp
      obtain ⟨j2, hj2, rfl⟩ := List.mem_map.mp hp
      intro heq
      have heq2 : lagName "x" (j2 + 1) = lagName "y" (j + 1) := by
        simpa using heq
      have hmx : lagName "y" (j + 1) ∈ lagNames "x" k := by
        rw [← heq2, lagNames]
        exact List.mem_map.mpr ⟨j2, hj2, rfl⟩
      exact hdisj hmx hmemy
    have hC : List.find? (fun c => c.1 == lagName "y" (j + 1))
        (lagZip "y" k (ys.map some))
        = some (lagName "y" (j + 1), pdShiftCol (j + 1) (ys.map some)) := by
      apply find?_assoc_nodup
      · rw [lagZip_map_fst]; exact hndy
      · rw [lagZip]
        exact List.mem_map.mpr ⟨j, List.mem_range.mpr hj, rfl⟩
    rw [DataFrame.getCol]
    show ((List.find? (fun c => c.1 == lagName "y" (j + 1))
      (([("x", xs.map some), ("y", ys.map some)]
        ++ lagZip "x" k (xs.map some)) ++ lagZip "y" k (ys.map some))).map
        (fun c => c.2)).getD [] = _
    rw [List.find?_append, List.find?_append, hA, hB, hC]
    rfl
  -- the keep predicate is exactly "has a full lag window"
  have hkeep : ∀ i < xs.length,
      ((lagNames "x" k ++ lagNames "y" k).all
        (fun c => ((DataFrame.getCol
          ⟨([("x", xs.map some), ("y", ys.map some)]
              ++ lagZip "x" k (xs.map some)) ++ lagZip "y" k (ys.map some)⟩
          c).getD i none).isSome)) = decide (k ≤ i) := by
    intro i hi
    by_cases hki : k ≤ i
    · rw [decide_eq_true hki, List.all_eq_true]
      intro c hc
      rcases List.mem_append.mp hc with h | h
      · rw [lagNames] at h
        obtain ⟨j, hj, rfl⟩ := List.mem_map.mp h
        rw [hgetlagx j (List.mem_range.mp hj),
          pdShiftCol_getD_isSome _ _ hXs i (by rw [List.length_map]; exact hi)]
        have : j + 1 ≤ i := by
          have := List.mem_range.mp hj
          omega
        exact decide_eq_true this
      · rw [lagNames] at h
        obtain ⟨j, hj, rfl⟩ := List.mem_map.mp h
        rw [hgetlagy j (List.mem_range.mp hj),
          pdShiftCol_getD_isSome _ _ hYs i
            (by rw [List.length_map, hlen]; exact hi)]
        have : j + 1 ≤ i := by
          have := List.mem_range.mp hj
          omega
        exact decide_eq_true this
    · rw [decide_eq_false hki, List.all_eq_false]
      obtain ⟨kp, rfl⟩ : ∃ kp, k = kp + 1 := ⟨k - 1, by omega⟩
      refine ⟨lagName "x" (kp + 1), ?_, ?_⟩
      · apply List.mem_append_left
        rw [lagNames]
        exact List.mem_map.mpr ⟨kp, List.mem_range.mpr (by omega), rfl⟩
      · rw [hgetlagx kp (by omega),
          pdShiftCol_getD_isSome _ _ hXs i (by rw [List.length_map]; exact hi)]
        have : ¬ (kp + 1 ≤ i) := by omega
        simp [this]
  refine ⟨rfl, ?_, ?_⟩
  · -- row count
    rw [hdrop, nRows_fillZero_filterRows
      ⟨([("x", xs.map some), ("y", ys.map some)]
          ++ lagZip "x" k (xs.map some)) ++ lagZip "y" k (ys.map some)⟩
      "x" (xs.map some)
      (("y", ys.map some)
        :: (lagZip "x" k (xs.map some) ++ lagZip "y" k (ys.map some))) _ rfl]
    rw [List.length_map]
    have hcong : (List.range xs.length).filter
        (fun i => (lagNames "x" k ++ lagNames "y" k).all
          (fun c => ((DataFrame.getCol
            ⟨([("x", xs.map some), ("y", ys.map some)]
                ++ lagZip "x" k (xs.map some)) ++ lagZip "y" k (ys.map some)⟩
            c).getD i none).isSome))
        = (List.range xs.length).filter (fun i => decide (k ≤ i)) :=
      List.filter_congr (fun i hi => hkeep i (List.mem_range.mp hi))
    rw [hcong, filter_range_count]
  · -- the output column keeps exactly the full-window rows
    rw [hdrop, getCol_fillZero_filterRows_snd
      ⟨([("x", xs.map some), ("y", ys.map some)]
          ++ lagZip "x" k (xs.map some)) ++ lagZip "y" k (ys.map some)⟩
      "x" "y" (xs.map some)
      (ys.map some) (lagZip "x" k (xs.map some) ++ lagZip "y" k (ys.map some))
      _ (by decide) rfl]
    have hidx : idxFilter (ys.map some)
        (fun i => (lagNames "x" k ++ lagNames "y" k).all
          (fun c => ((DataFrame.getCol
            ⟨([("x", xs.map some), ("y", ys.map some)]
                ++ lagZip "x" k (xs.map some)) ++ lagZip "y" k (ys.map some)⟩
            c).getD i none).isSome))
        = (ys.drop k).map some := by
      rw [idxFilter, List.length_map, hlen]
      have hcong : (List.range xs.length).filter
          (fun i => (lagNames "x" k ++ lagNames "y" k).all
            (fun c => ((DataFrame.getCol
              ⟨([("x", xs.map some), ("y", ys.map some)]
                  ++ lagZip "x" k (xs.map some)) ++ lagZip "y" k (ys.map some)⟩
              c).getD i none).isSome))
          = (List.range xs.length).filter (fun i => decide (k ≤ i)) :=
        List.filter_congr (fun i hi => hkeep i (List.mem_range.mp hi))
      rw [hcong, filter_range_eq_range']
      have hlen2 : xs.length - k = (ys.map some).length - k := by
        rw [List.length_map, hlen]
      rw [hlen2, range'_map_getD_eq_drop, List.map_drop]
    rw [hidx]
    apply fillnaCol_all_some
    intro o ho
    obtain ⟨y, _, rfl⟩ := List.mem_map.mp ho
    rfl

/-- C2 witness: six rows, one dynamic input, two lags — the returned
table has 6 − 2 = 4 usable rows, the feature list is the four lag
columns, and the output column keeps rows 2..5. -/
theorem preprocess_lag_row_count_witness :
    (1 ≤ 2 ∧ ([10, 20, 30, 40, 50, 60] : List ℚ).length
        = ([1, 2, 3, 4, 5, 6] : List ℚ).length ∧
      ("x" :: "y" :: (lagNames "x" 2 ++ lagNames "y" 2)).Nodup) ∧
    ((preprocess_data ⟨[("x", ([1, 2, 3, 4, 5, 6] : List ℚ).map some),
          ("y", ([10, 20, 30, 40, 50, 60] : List ℚ).map some)]⟩ ["x"] "y"
        [("x", "Dynamic")] 2 "median" false 9).2
      = lagNames "x" 2 ++ lagNames "y" 2 ∧
    (preprocess_data ⟨[("x", ([1, 2, 3, 4, 5, 6] : List ℚ).map some),
          ("y", ([10, 20, 30, 40, 50, 60] : List ℚ).map some)]⟩ ["x"] "y"
        [("x", "Dynamic")] 2 "median" false 9).1.nRows
      = ([1, 2, 3, 4, 5, 6] : List ℚ).length - 2 ∧
    (preprocess_data ⟨[("x", ([1, 2, 3, 4, 5, 6] : List ℚ).map some),
          ("y", ([10, 20, 30, 40, 50, 60] : List ℚ).map some)]⟩ ["x"] "y"
        [("x", "Dynamic")] 2 "median" false 9).1.getCol "y"
      = (([10, 20, 30, 40, 50, 60] : List ℚ).drop 2).map some) :=
  ⟨⟨by decide, by decide, by decide⟩,
   preprocess_lag_row_count [1, 2, 3, 4, 5, 6] [10, 20, 30, 40, 50, 60] 2
     (by decide) (by decide) (by decide)⟩

end StreamflowApp
